import Mathlib

/-!
Verification of the constraint-and-recommendation engine of the Wordle
entropy/rank solver (`wordle_solver.cpp`).  The C data is embedded as
follows: 5-letter words and the constraint strings `pGood` / `pBad`
become `List Char`; the green mask `pMask` becomes a `List Char` of
length 5 over letters and the unconstrained marker `'*'`; the positional
exclusion table `notMask[6][5]` becomes a `List (List Char)`; feedback
patterns become `List Char` over `{'G','Y','B'}`.  Shannon entropy is
modelled over the real numbers.
-/

set_option maxHeartbeats 1000000

namespace WordleSolver

/-- The uppercase alphabet, mirroring the C loops `for (i = 0; i < 26; i++)`
over the letter `'A' + i`. -/
def lettersAZ : List Char := (List.range 26).map (fun i => Char.ofNat (65 + i))

/-- Pass 1 of `get_feedback_pattern`: every position where the guess matches
the answer becomes `'G'`; all other positions keep the initial `'B'` from
`memset(result_pattern, 'B', WORD_SIZE)`. -/
def pass1 (guess answer : List Char) : List Char :=
  List.zipWith (fun g a => if g = a then 'G' else 'B') guess answer

/-- The tally `answer_char_counts` of `get_feedback_pattern`: the number of
occurrences of `c` in the answer at positions that are not exact matches. -/
def answer_char_counts (guess answer : List Char) (c : Char) : Nat :=
  ((guess.zip answer).filter (fun p => decide (p.1 ≠ p.2 ∧ p.2 = c))).length

/-- Decrement a count table at letter `c`, as `answer_char_counts[letter_index]--`
does in the C source. -/
def decr (f : Char → Nat) (c : Char) : Char → Nat :=
  fun x => if x = c then f c - 1 else f x

/-- Pass 2 of `get_feedback_pattern`: scanning left to right over the pairs of
guess letter and pass-1 symbol, a non-`'G'` position whose letter still has
remaining count becomes `'Y'` and consumes one count; every other position
keeps its pass-1 symbol. -/
def pass2 (cnt : Char → Nat) : List (Char × Char) → List Char
  | [] => []
  | (g, r) :: rest =>
    if r ≠ 'G' ∧ 0 < cnt g then 'Y' :: pass2 (decr cnt g) rest
    else r :: pass2 cnt rest

/-- `get_feedback_pattern` from the source: the two-pass, duplicate-letter
correct feedback simulation. -/
def get_feedback_pattern (guess answer : List Char) : List Char :=
  pass2 (answer_char_counts guess answer) (guess.zip (pass1 guess answer))

/-- Modelled from the spec (§4.1): the 26-letter count table of pass 1, the
tally of the non-matched letters of the answer. -/
def spec_counts (guess answer : List Char) (c : Char) : Nat :=
  (guess.zip answer).countP (fun p => decide (p.1 ≠ p.2 ∧ p.2 = c))

/-- Modelled from the spec (§4.1): the scan of pass 2, marking each position
Green on an exact match, else Yellow iff the guessed letter still has
remaining count (decrementing it), and Black otherwise. -/
def spec_scan (cnt : Char → Nat) : List (Char × Char) → List Char
  | [] => []
  | (g, a) :: rest =>
    if g = a then 'G' :: spec_scan cnt rest
    else if 0 < cnt g then 'Y' :: spec_scan (decr cnt g) rest
    else 'B' :: spec_scan cnt rest

/-- Modelled from the spec (§4.1): the reference two-pass evaluator
`evaluate(guess, answer)`. -/
def evaluate_spec (guess answer : List Char) : List Char :=
  spec_scan (spec_counts guess answer) (guess.zip answer)

/-- `is_good_fit` from the source: a candidate word passes the required-count
check over the 26 letters, the excluded-letter check, the green-mask check and
the positional-exclusion check.  Returning `true` models returning `1`. -/
def is_good_fit (pMask : List Char) (notMask : List (List Char))
    (pGood pBad pWord : List Char) : Bool :=
  (lettersAZ.all (fun c =>
      if 0 < pGood.count c then decide (pGood.count c ≤ pWord.count c) else true)) &&
  ((List.range 5).all (fun idx =>
      !(decide ((pWord.getD idx ' ') ∈ pBad)) &&
      (decide (pMask.getD idx '*' = '*') || decide (pMask.getD idx '*' = pWord.getD idx ' ')) &&
      ((List.range 6).all (fun t =>
          decide ((notMask.getD t []).getD idx '*' ≠ pWord.getD idx ' ')))))

/-- `filter_possible_answers` from the source: in-place compaction of the
answers that pass `is_good_fit`, modelled as `List.filter`.  The `numTries`
argument is unused in the source and kept for fidelity. -/
def filter_possible_answers (pPossibleAnswers : List (List Char)) (pMask : List Char)
    (notMask : List (List Char)) (pGood pBad : List Char) (_numTries : Nat) :
    List (List Char) :=
  pPossibleAnswers.filter (fun w => is_good_fit pMask notMask pGood pBad w)

/-- Modelled from the spec (§4.4): the four pass conditions of the candidate
filter, stated directly as propositions — (a) required minimum letter counts,
(b) no excluded letter, (c) agreement with every fixed green-mask slot,
(d) no letter in a position recorded as forbidden for it. -/
def good_fit_spec (pMask : List Char) (notMask : List (List Char))
    (pGood pBad pWord : List Char) : Prop :=
  (∀ c : Char, 0 < pGood.count c → pGood.count c ≤ pWord.count c) ∧
  (∀ c ∈ pWord, c ∉ pBad) ∧
  (∀ i < 5, pMask.getD i '*' ≠ '*' → pWord.getD i ' ' = pMask.getD i '*') ∧
  (∀ i < 5, ∀ t < 6, (notMask.getD t []).getD i '*' ≠ pWord.getD i ' ')

/-- `is_guess_word_risky` from the source: the guess has a letter repeated more
often than the current required count for that letter. -/
def is_guess_word_risky (guess pGood : List Char) : Bool :=
  lettersAZ.any (fun c =>
    decide (1 < guess.count c) && decide (pGood.count c < guess.count c))

/-- The mutable game constraint state of the source: green mask (`mask`),
positional exclusions (`notMask`, 6 rows of 5), required letters
(`goodButDontKnowWhere`) and excluded letters (`cannotHave`). -/
structure GameState where
  mask : List Char
  notMask : List (List Char)
  good : List Char
  bad : List Char
deriving DecidableEq

/-- The initial state set up in `main`: mask `"*****"`, all positional
exclusion rows `"*****"`, empty required and excluded letter strings. -/
def init_state : GameState :=
  { mask := List.replicate 5 '*'
    notMask := List.replicate 6 (List.replicate 5 '*')
    good := []
    bad := [] }

/-- Write letter `c` into row `row`, column `col` of the positional exclusion
table, as `notMask[tryIdx - 1][idx] = current_char` does. -/
def setNot (nm : List (List Char)) (row col : Nat) (c : Char) : List (List Char) :=
  nm.set row ((nm.getD row []).set col c)

/-- The confirmed minimum counts of `update_game_constraints`: for each letter,
the number of positions of this guess whose feedback is Green or Yellow. -/
def confirmed_counts (guess pattern : List Char) (c : Char) : Nat :=
  ((guess.zip pattern).filter
    (fun gp => decide ((gp.2 = 'G' ∨ gp.2 = 'Y') ∧ gp.1.toUpper = c))).length

/-- The body of the per-position loop of `update_game_constraints`, acting on
position `idx` with guess letter `g` and feedback symbol `r`.  The current
required count is recomputed from the `good` string as it stands when the
position is processed, exactly as the C code rescans `pGood` inside the loop. -/
def updatePos (conf : Char → Nat) (tryIdx idx : Nat) (g r : Char) (s : GameState) :
    GameState :=
  let c := g.toUpper
  let cur := s.good.count c
  if r = 'G' then
    { s with mask := s.mask.set idx c
             good := if cur < conf c then s.good ++ [c] else s.good }
  else if r = 'Y' then
    { s with notMask := setNot s.notMask (tryIdx - 1) idx c
             good := if cur < conf c then s.good ++ [c] else s.good }
  else if r = 'B' then
    { s with notMask := setNot s.notMask (tryIdx - 1) idx c
             bad := if cur = 0 ∧ ¬ (c ∈ s.bad) then s.bad ++ [c] else s.bad }
  else s

/-- `update_game_constraints` from the source: compute the confirmed minimum
counts for this guess, then fold the per-position update over the 5 positions
in order. -/
def update_game_constraints (guess pattern : List Char) (tryIdx : Nat)
    (s : GameState) : GameState :=
  (List.range 5).foldl
    (fun st idx =>
      updatePos (confirmed_counts guess pattern) tryIdx idx
        (guess.getD idx ' ') (pattern.getD idx ' ') st) s

/-- A sequence of turns: fold `update_game_constraints` over a list of
(guess, feedback, turn index) triples. -/
def update_sequence (moves : List (List Char × List Char × Nat)) (s : GameState) :
    GameState :=
  moves.foldl (fun st mv => update_game_constraints mv.1 mv.2.1 mv.2.2 st) s

/-- `GUESS_METRICS` from the source: the per-word metric record.  The `double`
entropy is modelled as an exact rational; the pick and policy functions below
only copy or compare this field. -/
structure GUESS_METRICS where
  word : String
  entropy : ℚ
  rank : Int
  is_risky : Bool
  nounType : Char
  verbType : Char
deriving DecidableEq

instance : Inhabited GUESS_METRICS := ⟨⟨"", 0, 0, false, 'N', 'N'⟩⟩

/-- `PICK_DATA` from the source: the top pick and its alternate for one
optimization path, each either a candidate word or the sentinel `"NONE"`. -/
structure PICK_DATA where
  word : String
  alternate_word : String
deriving DecidableEq

/-- The admissibility filter of `find_top_linguistic_picks`: not a plural noun,
not a past-tense or third-person-singular verb, and not risky. -/
def admissibleB (m : GUESS_METRICS) : Bool :=
  decide (m.nounType ≠ 'P') && decide (m.verbType ≠ 'T') &&
    decide (m.verbType ≠ 'S') && decide (m.is_risky = false)

/-- The scanning loop of `find_top_linguistic_picks`: record the first
admissible entry as the pick, the second as the alternate, then break. -/
def scanLoop : PICK_DATA → Nat → List GUESS_METRICS → PICK_DATA × Nat
  | res, cnt, [] => (res, cnt)
  | res, cnt, m :: rest =>
    if admissibleB m = true then
      if cnt = 0 then scanLoop { res with word := m.word } 1 rest
      else if cnt = 1 then ({ res with alternate_word := m.word }, 2)
      else scanLoop res cnt rest
    else scanLoop res cnt rest

/-- The inner part of the fallback block of `find_top_linguistic_picks`: when
one pick is set and the list has a second entry, fill the alternate from the
absolute second entry unless it duplicates the pick; the `else if
(numMetrics == 1)` arm re-asserts the `"NONE"` alternate. -/
def fallback_second (l : List GUESS_METRICS) (res : PICK_DATA) (cnt : Nat) :
    PICK_DATA :=
  if cnt = 1 ∧ 1 < l.length then
    if res.alternate_word = "NONE" then
      if (l.getD 1 default).word ≠ res.word then
        { res with alternate_word := (l.getD 1 default).word }
      else res
    else res
  else if l.length = 1 then { res with alternate_word := "NONE" } else res

/-- The fallback block of `find_top_linguistic_picks`: if fewer than two clean
words were found and the list is non-empty, promote the absolute top entry to
the pick when none was found, then fill the alternate. -/
def fallback_fill (l : List GUESS_METRICS) (res : PICK_DATA) (cnt : Nat) :
    PICK_DATA :=
  if cnt < 2 ∧ 0 < l.length then
    fallback_second l
      (if cnt = 0 then { res with word := (l.getD 0 default).word } else res)
      (if cnt = 0 then 1 else cnt)
  else res

/-- `find_top_linguistic_picks` from the source: scan the sorted metric list
for the top two admissible entries, then apply the fallback block. -/
def find_top_linguistic_picks (l : List GUESS_METRICS) : PICK_DATA :=
  fallback_fill l (scanLoop ⟨"NONE", "NONE"⟩ 0 l).1 (scanLoop ⟨"NONE", "NONE"⟩ 0 l).2

/-- `find_metric_by_word` from the source: linear search for the metric record
of a word, with the sentinel `"NONE"` mapped to no result. -/
def find_metric_by_word (w : String) (l : List GUESS_METRICS) :
    Option GUESS_METRICS :=
  if w = "NONE" then none
  else l.find? (fun m => decide (m.word = w))

/-- `determine_final_pick` from the source: the recommended word together with
the rank and entropy printed for it.  The entropy-threshold constant
`ENTROPY_RANK_THRESHOLD` is `0.50` and `LOW_POSSIBLE_ANSWER_COUNT` is `25`. -/
def determine_final_pick (rankSorted entropySorted : List GUESS_METRICS)
    (numPossibleAnswers : Nat) (rankPicks entropyPicks : PICK_DATA) :
    String × ℚ × ℚ :=
  match find_metric_by_word rankPicks.word rankSorted,
        find_metric_by_word entropyPicks.word entropySorted with
  | some r, some e =>
    if 25 < numPossibleAnswers then
      if 1 / 2 < |e.entropy - r.entropy| then (e.word, (e.rank : ℚ), e.entropy)
      else (rankPicks.word, (r.rank : ℚ), r.entropy)
    else
      ((rankSorted.getD 0 default).word, ((rankSorted.getD 0 default).rank : ℚ),
        (rankSorted.getD 0 default).entropy)
  | pR, _ =>
    if 0 < numPossibleAnswers then
      ((rankSorted.getD 0 default).word, ((rankSorted.getD 0 default).rank : ℚ),
        (rankSorted.getD 0 default).entropy)
    else
      (rankPicks.word,
        (match pR with | some r => (r.rank : ℚ) | none => 0),
        (match pR with | some r => r.entropy | none => 0))

/-- One pattern's contribution `P_k * log2(N / count_k)` to the Shannon entropy
sum of `calculate_entropy_score`, where `L` is the list of feedback patterns of
all possible answers. -/
noncomputable def entropy_term (L : List (List Char)) (pat : List Char) : ℝ :=
  ((L.count pat : ℝ) / (L.length : ℝ)) *
    (Real.log ((L.length : ℝ) / (L.count pat : ℝ)) / Real.log 2)

/-- `calculate_entropy_score` from the source: `0` when at most one possible
answer remains, otherwise the Shannon entropy of the histogram of feedback
patterns of the guess against every possible answer. -/
noncomputable def calculate_entropy_score (guess : List Char)
    (possibleAnswers : List (List Char)) : ℝ :=
  if possibleAnswers.length ≤ 1 then 0
  else
    ((possibleAnswers.map (get_feedback_pattern guess)).dedup.map
      (entropy_term (possibleAnswers.map (get_feedback_pattern guess)))).sum

end WordleSolver

namespace WordleSolver

lemma counts_eq (guess answer : List Char) :
    spec_counts guess answer = answer_char_counts guess answer := by
  funext c
  rw [spec_counts, answer_char_counts, List.countP_eq_length_filter]

lemma pass2_eq_spec_scan :
    ∀ (guess answer : List Char) (cnt : Char → Nat),
      pass2 cnt (guess.zip (pass1 guess answer)) = spec_scan cnt (guess.zip answer) := by
  intro guess
  induction guess with
  | nil => intro answer cnt; simp [pass1, pass2, spec_scan]
  | cons g gs ih =>
    intro answer cnt
    cases answer with
    | nil => simp [pass1, pass2, spec_scan]
    | cons a as =>
      by_cases hga : g = a
      · simp [pass1, pass2, spec_scan, hga]
        exact ih as cnt
      · by_cases hcnt : 0 < cnt g
        · simp [pass1, pass2, spec_scan, hga, hcnt]
          exact ih as (decr cnt g)
        · simp [pass1, pass2, spec_scan, hga, hcnt]
          exact ih as cnt

lemma spec_scan_diag : ∀ (w : List Char) (cnt : Char → Nat),
    spec_scan cnt (w.zip w) = List.replicate w.length 'G' := by
  intro w
  induction w with
  | nil => intro cnt; simp [spec_scan]
  | cons x xs ih =>
    intro cnt
    rw [show (x :: xs).zip (x :: xs) = (x, x) :: xs.zip xs from rfl]
    rw [show spec_scan cnt ((x, x) :: xs.zip xs) = 'G' :: spec_scan cnt (xs.zip xs) by
      simp [spec_scan]]
    rw [ih, List.length_cons, List.replicate_succ]

/-- Claim C4: `get_feedback_pattern` agrees with the spec's two-pass reference
evaluator on every guess/answer pair, and the pattern of a word against itself
is all-Green. -/
theorem feedback_pattern_two_pass_reference :
    ∀ guess answer w : List Char,
      get_feedback_pattern guess answer = evaluate_spec guess answer ∧
      get_feedback_pattern w w = List.replicate w.length 'G' := by
  intro guess answer w
  constructor
  · rw [get_feedback_pattern, evaluate_spec, counts_eq, pass2_eq_spec_scan]
  · rw [get_feedback_pattern, pass2_eq_spec_scan, spec_scan_diag]

/-- Claim C8: filtering is idempotent; re-filtering an already-filtered list
under the same constraint state returns the identical list. -/
theorem filter_idempotent :
    ∀ (C : List (List Char)) (pMask : List Char) (notMask : List (List Char))
      (pGood pBad : List Char) (t : Nat),
      filter_possible_answers (filter_possible_answers C pMask notMask pGood pBad t)
          pMask notMask pGood pBad t
        = filter_possible_answers C pMask notMask pGood pBad t := by
  intro C pMask notMask pGood pBad t
  simp [filter_possible_answers, List.filter_filter]

/-- Claim C10: `is_guess_word_risky` is antitone in the required-letter string:
more required letters can only clear the risky flag; and a word with no
repeated letter is never risky. -/
theorem risky_antitone :
    ∀ (w g g2 : List Char),
      ((∀ c ∈ lettersAZ, g.count c ≤ g2.count c) →
        is_guess_word_risky w g2 = true → is_guess_word_risky w g = true) ∧
      ((∀ c ∈ lettersAZ, w.count c ≤ 1) → is_guess_word_risky w g = false) := by
  intro w g g2
  constructor
  · intro hmono hrisky
    rw [is_guess_word_risky, List.any_eq_true] at hrisky ⊢
    obtain ⟨c, hc, hcond⟩ := hrisky
    simp only [Bool.and_eq_true, decide_eq_true_eq] at hcond
    refine ⟨c, hc, ?_⟩
    simp only [Bool.and_eq_true, decide_eq_true_eq]
    exact ⟨hcond.1, lt_of_le_of_lt (hmono c hc) hcond.2⟩
  · intro hnorep
    rw [is_guess_word_risky]
    rw [Bool.eq_false_iff]
    intro hcon
    rw [List.any_eq_true] at hcon
    obtain ⟨c, hc, hcond⟩ := hcon
    simp only [Bool.and_eq_true, decide_eq_true_eq] at hcond
    exact absurd hcond.1 (not_lt.mpr (hnorep c hc))

/-- Witness for claim C10 at concrete inputs: DADDY is risky when only one D is
required but stays risky when the requirement string shrinks to nothing, and a
word without repeats is never risky. -/
theorem risky_antitone_witness :
    is_guess_word_risky ("DADDY".toList) [] = true ∧
    is_guess_word_risky ("CRANE".toList) ("ZZZ".toList) = false := by
  constructor
  · exact (risky_antitone ("DADDY".toList) [] ("D".toList)).1
      (by decide) (by decide)
  · exact (risky_antitone ("CRANE".toList) ("ZZZ".toList) []).2 (by decide)

lemma pass2_length : ∀ (cnt : Char → Nat) (l : List (Char × Char)),
    (pass2 cnt l).length = l.length := by
  intro cnt l
  induction l generalizing cnt with
  | nil => simp [pass2]
  | cons hd tl ih =>
    obtain ⟨g, r⟩ := hd
    by_cases hif : r ≠ 'G' ∧ 0 < cnt g
    · simp [pass2, hif, ih]
    · simp [pass2, hif, ih]

lemma zip_getD_fst : ∀ (a : List Char) (b : List Char) (i : Nat),
    i < (a.zip b).length → ((a.zip b).getD i (' ', ' ')).1 = a.getD i ' ' := by
  intro a
  induction a with
  | nil => intro b i h; simp at h
  | cons x xs ih =>
    intro b i h
    cases b with
    | nil => simp at h
    | cons y ys =>
      cases i with
      | zero => simp
      | succ n =>
        rw [List.zip_cons_cons] at h ⊢
        rw [List.getD_cons_succ, List.getD_cons_succ]
        exact ih ys n (by simpa using h)

lemma pass1_zip_no_yellow : ∀ (guess answer : List Char),
    ∀ pr ∈ guess.zip (pass1 guess answer), pr.2 ≠ 'Y' := by
  intro guess
  induction guess with
  | nil => intro answer pr h; simp [List.zip] at h
  | cons g gs ih =>
    intro answer pr h
    cases answer with
    | nil => simp [pass1, List.zip] at h
    | cons a as =>
      rw [show (g :: gs).zip (pass1 (g :: gs) (a :: as))
          = (g, if g = a then 'G' else 'B') :: gs.zip (pass1 gs as) from rfl] at h
      rcases List.mem_cons.mp h with h1 | h1
      · subst h1
        by_cases hga : g = a <;> simp [hga]
      · exact ih as pr h1

lemma pass2_no_yellow_of_zero :
    ∀ (l : List (Char × Char)) (cnt : Char → Nat) (c : Char),
      (∀ pr ∈ l, pr.2 ≠ 'Y') → cnt c = 0 →
      ∀ j, j < l.length → (l.getD j (' ', ' ')).1 = c →
        (pass2 cnt l).getD j ' ' ≠ 'Y' := by
  intro l
  induction l with
  | nil => intro cnt c _ _ j hj; simp at hj
  | cons hd tl ih =>
    intro cnt c hy hc j hj hfst
    obtain ⟨g, r⟩ := hd
    by_cases hif : r ≠ 'G' ∧ 0 < cnt g
    · have hgc : g ≠ c := by
        intro hgc
        rw [hgc, hc] at hif
        exact absurd hif.2 (by decide)
      rw [show pass2 cnt ((g, r) :: tl) = 'Y' :: pass2 (decr cnt g) tl by
        simp [pass2, hif]]
      cases j with
      | zero =>
        exfalso
        rw [List.getD_cons_zero] at hfst
        exact hgc hfst
      | succ n =>
        rw [List.getD_cons_succ]
        refine ih (decr cnt g) c (fun pr hpr => hy pr (List.mem_cons_of_mem _ hpr))
          ?_ n (by simpa using hj) (by simpa using hfst)
        rw [decr]
        simp [Ne.symm hgc, hc]
    · rw [show pass2 cnt ((g, r) :: tl) = r :: pass2 cnt tl by simp [pass2, hif]]
      cases j with
      | zero =>
        rw [List.getD_cons_zero]
        exact hy (g, r) (List.mem_cons_self _ _)
      | succ n =>
        rw [List.getD_cons_succ]
        exact ih cnt c (fun pr hpr => hy pr (List.mem_cons_of_mem _ hpr)) hc n
          (by simpa using hj) (by simpa using hfst)

lemma pass2_black_then_no_yellow :
    ∀ (l : List (Char × Char)) (cnt : Char → Nat),
      (∀ pr ∈ l, pr.2 ≠ 'Y') → ∀ i j, i < j → j < l.length →
      (l.getD i (' ', ' ')).1 = (l.getD j (' ', ' ')).1 →
      (pass2 cnt l).getD i ' ' = 'B' → (pass2 cnt l).getD j ' ' ≠ 'Y' := by
  intro l
  induction l with
  | nil => intro cnt _ i j _ hj; simp at hj
  | cons hd tl ih =>
    intro cnt hy i j hij hj hfst hiB
    obtain ⟨g, r⟩ := hd
    obtain ⟨j', rfl⟩ : ∃ j', j = j' + 1 := ⟨j - 1, by omega⟩
    by_cases hif : r ≠ 'G' ∧ 0 < cnt g
    · rw [show pass2 cnt ((g, r) :: tl) = 'Y' :: pass2 (decr cnt g) tl by
        simp [pass2, hif]] at hiB ⊢
      cases i with
      | zero => simp at hiB
      | succ i' =>
        rw [List.getD_cons_succ] at hiB ⊢
        rw [List.getD_cons_succ, List.getD_cons_succ] at hfst
        exact ih (decr cnt g) (fun pr hpr => hy pr (List.mem_cons_of_mem _ hpr))
          i' j' (by omega) (by simpa using hj) hfst hiB
    · rw [show pass2 cnt ((g, r) :: tl) = r :: pass2 cnt tl by simp [pass2, hif]]
        at hiB ⊢
      cases i with
      | zero =>
        rw [List.getD_cons_zero] at hiB
        subst hiB
        have hcnt : cnt g = 0 := by
          rcases Nat.eq_zero_or_pos (cnt g) with h0 | hpos
          · exact h0
          · exact absurd ⟨by decide, hpos⟩ hif
        rw [List.getD_cons_succ]
        rw [List.getD_cons_zero, List.getD_cons_succ] at hfst
        exact pass2_no_yellow_of_zero tl cnt g
          (fun pr hpr => hy pr (List.mem_cons_of_mem _ hpr)) hcnt j'
          (by simpa using hj) hfst.symm
      | succ i' =>
        rw [List.getD_cons_succ] at hiB ⊢
        rw [List.getD_cons_succ, List.getD_cons_succ] at hfst
        exact ih cnt (fun pr hpr => hy pr (List.mem_cons_of_mem _ hpr))
          i' j' (by omega) (by simpa using hj) hfst hiB

/-- Claim C9: in an evaluator-produced pattern, Yellow marks are assigned
greedily left to right, so a position marked Black for some letter is never
followed by a later position of the same letter marked Yellow. -/
theorem yellow_before_black :
    ∀ (guess answer : List Char) (i j : Nat),
      i < j → j < (get_feedback_pattern guess answer).length →
      guess.getD i ' ' = guess.getD j ' ' →
      (get_feedback_pattern guess answer).getD i ' ' = 'B' →
      (get_feedback_pattern guess answer).getD j ' ' ≠ 'Y' := by
  intro guess answer i j hij hj hsame hiB
  rw [get_feedback_pattern] at hj hiB ⊢
  have hlen : j < (guess.zip (pass1 guess answer)).length := by
    rwa [pass2_length] at hj
  refine pass2_black_then_no_yellow (guess.zip (pass1 guess answer))
    (answer_char_counts guess answer) (pass1_zip_no_yellow guess answer)
    i j hij hlen ?_ hiB
  rw [zip_getD_fst _ _ i (by omega), zip_getD_fst _ _ j hlen]
  exact hsame

/-- Witness for claim C9 at a concrete input: guess AAAAA against answer BBBBA
yields pattern BBBBG; position 0 is Black for letter A, so position 1 (also A)
is not Yellow. -/
theorem yellow_before_black_witness :
    (get_feedback_pattern ("AAAAA".toList) ("BBBBA".toList)).getD 1 ' ' ≠ 'Y' := by
  exact yellow_before_black ("AAAAA".toList) ("BBBBA".toList) 0 1
    (by decide) (by decide) (by decide) (by decide)

lemma count_le_updatePos (conf : Char → Nat) (t i : Nat) (g r : Char) (s : GameState)
    (ch : Char) : s.good.count ch ≤ (updatePos conf t i g r s).good.count ch := by
  rw [updatePos]
  split_ifs <;> simp [List.count_append]

lemma set_getD_ne_star (l : List Char) (i k : Nat) (c : Char) (hc : c ≠ '*')
    (h : l.getD k '*' ≠ '*') : (l.set i c).getD k '*' ≠ '*' := by
  by_cases hk : k < l.length
  · rw [List.getD_eq_getElem _ _ (by simpa using hk)]
    rw [List.getElem_set]
    split_ifs with hik
    · exact hc
    · rw [List.getD_eq_getElem _ _ hk] at h
      exact h
  · rw [List.getD_eq_default _ _ (by simpa using Nat.le_of_not_lt hk)]
    rw [List.getD_eq_default _ _ (Nat.le_of_not_lt hk)] at h
    exact absurd rfl h

lemma mask_getD_updatePos (conf : Char → Nat) (t i : Nat) (g r : Char) (s : GameState)
    (k : Nat) (hg : g.toUpper ≠ '*') (h : s.mask.getD k '*' ≠ '*') :
    (updatePos conf t i g r s).mask.getD k '*' ≠ '*' := by
  rw [updatePos]
  split_ifs <;> first
    | exact h
    | exact set_getD_ne_star s.mask i k g.toUpper hg h

lemma getD_mem_or_default (l : List Char) (i : Nat) (d : Char) :
    l.getD i d ∈ l ∨ l.getD i d = d := by
  by_cases h : i < l.length
  · left
    rw [List.getD_eq_getElem _ _ h]
    exact List.getElem_mem h
  · right
    exact List.getD_eq_default _ _ (Nat.le_of_not_lt h)

lemma update_good_mono (guess pattern : List Char) (t : Nat) (s : GameState)
    (ch : Char) :
    s.good.count ch ≤ (update_game_constraints guess pattern t s).good.count ch := by
  rw [update_game_constraints]
  generalize List.range 5 = idxs
  induction idxs generalizing s with
  | nil => exact Nat.le_refl _
  | cons hd tl ih =>
    rw [List.foldl_cons]
    exact Nat.le_trans (count_le_updatePos _ _ _ _ _ _ _) (ih _)

lemma update_mask_pres (guess pattern : List Char) (t : Nat) (s : GameState)
    (k : Nat) (hg : ∀ ch ∈ guess, ch.toUpper ≠ '*')
    (h : s.mask.getD k '*' ≠ '*') :
    (update_game_constraints guess pattern t s).mask.getD k '*' ≠ '*' := by
  rw [update_game_constraints]
  generalize List.range 5 = idxs
  induction idxs generalizing s with
  | nil => exact h
  | cons hd tl ih =>
    rw [List.foldl_cons]
    refine ih _ (mask_getD_updatePos _ _ _ _ _ _ _ ?_ h)
    rcases getD_mem_or_default guess hd ' ' with hm | hm
    · exact hg _ hm
    · rw [hm]; decide

/-- Claim C7: across any sequence of constraint updates whose guesses contain
no `'*'` character (in particular any 5-letter guesses), no required-letter
count ever decreases and no fixed green-mask slot is ever returned to `'*'`. -/
theorem constraints_monotone :
    ∀ (moves : List (List Char × List Char × Nat)) (s : GameState),
      (∀ mv ∈ moves, ∀ ch ∈ mv.1, ch.toUpper ≠ '*') →
      (∀ ch : Char, s.good.count ch ≤ (update_sequence moves s).good.count ch) ∧
      (∀ k : Nat, s.mask.getD k '*' ≠ '*' →
        (update_sequence moves s).mask.getD k '*' ≠ '*') := by
  intro moves
  induction moves with
  | nil => intro s _; exact ⟨fun ch => Nat.le_refl _, fun k h => h⟩
  | cons mv rest ih =>
    intro s hmv
    have hstep := ih (update_game_constraints mv.1 mv.2.1 mv.2.2 s)
      (fun m hm => hmv m (List.mem_cons_of_mem _ hm))
    constructor
    · intro ch
      exact Nat.le_trans (update_good_mono mv.1 mv.2.1 mv.2.2 s ch) (hstep.1 ch)
    · intro k hk
      exact hstep.2 k (update_mask_pres mv.1 mv.2.1 mv.2.2 s k
        (hmv mv (List.mem_cons_self _ _)) hk)

/-- Witness for claim C7 at a concrete input: one real turn (guess CRANE with
feedback GYBBY) never lowers the required count of C and keeps mask slot 0
fixed afterwards. -/
theorem constraints_monotone_witness :
    (update_game_constraints ("CRANE".toList) ("GGGGG".toList) 1 init_state).good.count 'C'
      ≤ (update_sequence [(("CRANE".toList), ("GYBBY".toList), 2)]
          (update_game_constraints ("CRANE".toList) ("GGGGG".toList) 1 init_state)).good.count 'C'
    ∧ (update_sequence [(("CRANE".toList), ("GYBBY".toList), 2)]
          (update_game_constraints ("CRANE".toList) ("GGGGG".toList) 1 init_state)).mask.getD 0 '*' ≠ '*' := by
  constructor
  · exact (constraints_monotone [(("CRANE".toList), ("GYBBY".toList), 2)]
      (update_game_constraints ("CRANE".toList) ("GGGGG".toList) 1 init_state)
      (by decide)).1 'C'
  · exact (constraints_monotone [(("CRANE".toList), ("GYBBY".toList), 2)]
      (update_game_constraints ("CRANE".toList) ("GGGGG".toList) 1 init_state)
      (by decide)).2 0 (by decide)

/-- Claim C1 exhibit: the feedback `BGBBB` for guess `AAXYZ` is producible by
the evaluator (answer `BACDE`), yet applying it to the fresh state both adds
`A` to the excluded letters and raises the required count of `A` above zero:
the state invariant of the spec is violated because the Black at position 0 is
processed before the Green at position 1 has recorded `A` as required. -/
theorem update_excludes_required_letter :
    get_feedback_pattern ("AAXYZ".toList) ("BACDE".toList) = "BGBBB".toList ∧
    'A' ∈ (update_game_constraints ("AAXYZ".toList) ("BGBBB".toList) 1 init_state).bad ∧
    0 < (update_game_constraints ("AAXYZ".toList) ("BGBBB".toList) 1 init_state).good.count 'A' := by
  decide

lemma scanLoop_one (res : PICK_DATA) (l : List GUESS_METRICS) :
    scanLoop res 1 l =
      match l.filter admissibleB with
      | [] => (res, 1)
      | b :: _ => ({ res with alternate_word := b.word }, 2) := by
  induction l generalizing res with
  | nil => simp [scanLoop]
  | cons m tl ih =>
    by_cases hm : admissibleB m = true
    · simp [scanLoop, hm, List.filter_cons]
    · simp [scanLoop, hm, List.filter_cons, ih]

lemma scanLoop_zero (res : PICK_DATA) (l : List GUESS_METRICS) :
    scanLoop res 0 l =
      match l.filter admissibleB with
      | [] => (res, 0)
      | [a] => ({ res with word := a.word }, 1)
      | a :: b :: _ => ({ res with word := a.word, alternate_word := b.word }, 2) := by
  induction l generalizing res with
  | nil => simp [scanLoop]
  | cons m tl ih =>
    by_cases hm : admissibleB m = true
    · rw [show scanLoop res 0 (m :: tl) = scanLoop { res with word := m.word } 1 tl by
        simp [scanLoop, hm]]
      rw [scanLoop_one]
      cases htl : tl.filter admissibleB with
      | nil => simp [List.filter_cons, hm, htl]
      | cons b rest => simp [List.filter_cons, hm, htl]
    · rw [show scanLoop res 0 (m :: tl) = scanLoop res 0 tl by simp [scanLoop, hm]]
      rw [ih]
      simp [List.filter_cons, hm]

lemma fallback_fill_zero (l : List GUESS_METRICS) (res : PICK_DATA)
    (h : 0 < l.length) :
    fallback_fill l res 0
      = fallback_second l { res with word := (l.getD 0 default).word } 1 := by
  rw [fallback_fill, if_pos ⟨by omega, h⟩]
  simp

lemma fallback_fill_one (l : List GUESS_METRICS) (res : PICK_DATA)
    (h : 0 < l.length) :
    fallback_fill l res 1 = fallback_second l res 1 := by
  rw [fallback_fill, if_pos ⟨by omega, h⟩]
  simp

lemma fallback_fill_two (l : List GUESS_METRICS) (res : PICK_DATA) :
    fallback_fill l res 2 = res := by
  rw [fallback_fill]
  simp

lemma fallback_second_one (l : List GUESS_METRICS) (res : PICK_DATA)
    (hres : res.alternate_word = "NONE") :
    fallback_second l res 1 =
      if 1 < l.length then
        if (l.getD 1 default).word ≠ res.word then
          { res with alternate_word := (l.getD 1 default).word }
        else res
      else res := by
  rw [fallback_second]
  by_cases h1 : 1 < l.length
  · rw [if_pos ⟨rfl, h1⟩, hres, if_pos rfl, if_pos h1]
  · rw [if_neg (fun hc => h1 hc.2), if_neg h1]
    by_cases hl1 : l.length = 1
    · rw [if_pos hl1]
      cases res with
      | mk w a =>
        simp only at hres
        rw [hres]
    · rw [if_neg hl1]

lemma find_top_eq_nil (l : List GUESS_METRICS) (hl : 0 < l.length)
    (hf : l.filter admissibleB = []) :
    find_top_linguistic_picks l
      = fallback_second l ⟨(l.getD 0 default).word, "NONE"⟩ 1 := by
  rw [find_top_linguistic_picks, scanLoop_zero, hf]
  show fallback_fill l ⟨"NONE", "NONE"⟩ 0 = _
  rw [fallback_fill_zero _ _ hl]

lemma find_top_eq_single (l : List GUESS_METRICS) (a : GUESS_METRICS)
    (hl : 0 < l.length) (hf : l.filter admissibleB = [a]) :
    find_top_linguistic_picks l = fallback_second l ⟨a.word, "NONE"⟩ 1 := by
  rw [find_top_linguistic_picks, scanLoop_zero, hf]
  show fallback_fill l ⟨a.word, "NONE"⟩ 1 = _
  rw [fallback_fill_one _ _ hl]

lemma find_top_eq_two (l : List GUESS_METRICS) (a b : GUESS_METRICS)
    (t : List GUESS_METRICS) (hf : l.filter admissibleB = a :: b :: t) :
    find_top_linguistic_picks l = ⟨a.word, b.word⟩ := by
  rw [find_top_linguistic_picks, scanLoop_zero, hf]
  show fallback_fill l ⟨a.word, b.word⟩ 2 = _
  rw [fallback_fill_two]

/-- Claim C2 counterexample: a two-element list with distinct words whose only
admissible entry is the second element yields alternate `"NONE"`, although the
list has two members holding two distinct words. -/
theorem top_picks_alternate_none_counterexample :
    (find_top_linguistic_picks
        [⟨"AAAAA", 0, 10, false, 'P', 'N'⟩, ⟨"BBBBB", 0, 20, false, 'N', 'N'⟩]).alternate_word
      = "NONE"
    ∧ ([⟨"AAAAA", 0, 10, false, 'P', 'N'⟩, ⟨"BBBBB", 0, 20, false, 'N', 'N'⟩] :
        List GUESS_METRICS).length = 2
    ∧ ("AAAAA" : String) ≠ "BBBBB" := by
  decide

/-- Claim C2 (amended): for a non-empty metric list of genuine words, the
primary pick is never `"NONE"`; the alternate is `"NONE"` only when the list
has exactly one member or when the entry at index 1 carries the same word as
the chosen primary; with no admissible entry the pick is the absolute top
entry; and with at most one admissible entry, a second entry whose word
differs from the pick becomes the alternate. -/
theorem top_picks_fallback :
    ∀ (l : List GUESS_METRICS), l ≠ [] → (∀ m ∈ l, m.word ≠ "NONE") →
      (find_top_linguistic_picks l).word ≠ "NONE" ∧
      ((find_top_linguistic_picks l).alternate_word = "NONE" →
        l.length = 1 ∨ (l.getD 1 default).word = (find_top_linguistic_picks l).word) ∧
      (l.filter admissibleB = [] →
        (find_top_linguistic_picks l).word = (l.getD 0 default).word) ∧
      ((l.filter admissibleB).length ≤ 1 → 1 < l.length →
        (l.getD 1 default).word ≠ (find_top_linguistic_picks l).word →
        (find_top_linguistic_picks l).alternate_word = (l.getD 1 default).word) := by
  intro l hne hwords
  have hlpos : 0 < l.length := List.length_pos.mpr hne
  have h0mem : l.getD 0 default ∈ l := by
    rw [List.getD_eq_getElem _ _ hlpos]
    exact List.getElem_mem hlpos
  have h1mem : 1 < l.length → l.getD 1 default ∈ l := by
    intro h1
    rw [List.getD_eq_getElem _ _ h1]
    exact List.getElem_mem h1
  cases hf : l.filter admissibleB with
  | nil =>
    rw [find_top_eq_nil l hlpos hf, fallback_second_one _ _ rfl]
    by_cases h1 : 1 < l.length
    · rw [if_pos h1]
      by_cases hw : (l.getD 1 default).word ≠ (⟨(l.getD 0 default).word, "NONE"⟩ : PICK_DATA).word
      · rw [if_pos hw]
        refine ⟨hwords _ h0mem, ?_, fun _ => rfl, fun _ _ _ => rfl⟩
        intro habs
        exact absurd habs (hwords _ (h1mem h1))
      · rw [if_neg hw]
        simp only [ne_eq, not_not] at hw
        refine ⟨hwords _ h0mem, fun _ => Or.inr hw, fun _ => rfl, ?_⟩
        intro _ _ hcon
        exact absurd hw hcon
    · rw [if_neg h1]
      exact ⟨hwords _ h0mem, fun _ => Or.inl (by omega), fun _ => rfl,
        fun _ hcon => absurd hcon h1⟩
  | cons a rest =>
    have hamem : a ∈ l := by
      refine List.mem_of_mem_filter (p := admissibleB) ?_
      rw [hf]
      exact List.mem_cons_self _ _
    cases rest with
    | nil =>
      rw [find_top_eq_single l a hlpos hf, fallback_second_one _ _ rfl]
      by_cases h1 : 1 < l.length
      · rw [if_pos h1]
        by_cases hw : (l.getD 1 default).word ≠ (⟨a.word, "NONE"⟩ : PICK_DATA).word
        · rw [if_pos hw]
          refine ⟨hwords _ hamem, ?_, ?_, fun _ _ _ => rfl⟩
          · intro habs
            exact absurd habs (hwords _ (h1mem h1))
          · intro hcon
            exact absurd hcon (List.cons_ne_nil a [])
        · rw [if_neg hw]
          simp only [ne_eq, not_not] at hw
          refine ⟨hwords _ hamem, fun _ => Or.inr hw, ?_, ?_⟩
          · intro hcon
            exact absurd hcon (List.cons_ne_nil a [])
          · intro _ _ hcon
            exact absurd hw hcon
      · rw [if_neg h1]
        refine ⟨hwords _ hamem, fun _ => Or.inl (by omega), ?_,
          fun _ hcon => absurd hcon h1⟩
        intro hcon
        exact absurd hcon (List.cons_ne_nil a [])
    | cons b rest2 =>
      have hbmem : b ∈ l := by
        refine List.mem_of_mem_filter (p := admissibleB) ?_
        rw [hf]
        exact List.mem_cons_of_mem _ (List.mem_cons_self _ _)
      rw [find_top_eq_two l a b rest2 hf]
      refine ⟨hwords _ hamem, ?_, ?_, ?_⟩
      · intro habs
        exact absurd habs (hwords _ hbmem)
      · intro hcon
        exact absurd hcon (List.cons_ne_nil a (b :: rest2))
      · intro hlen
        simp at hlen

/-- Witness for claim C2 (amended) at a concrete input: a singleton list gives
a non-`"NONE"` pick whose alternate is `"NONE"` because the list has one
member. -/
theorem top_picks_fallback_witness :
    (find_top_linguistic_picks [⟨"CRANE", 0, 50, false, 'N', 'N'⟩]).word ≠ "NONE" := by
  exact (top_picks_fallback [⟨"CRANE", 0, 50, false, 'N', 'N'⟩]
    (by decide) (by decide)).1

lemma find_metric_by_word_some {w : String} {l : List GUESS_METRICS}
    {m : GUESS_METRICS} (h : find_metric_by_word w l = some m) : m.word = w := by
  rw [find_metric_by_word] at h
  by_cases h1 : w = "NONE"
  · rw [if_pos h1] at h
    exact absurd h (by simp)
  · rw [if_neg h1] at h
    have := List.find?_some h
    simpa using this

/-- Claim C3: with a non-empty candidate set, `determine_final_pick` chooses
the entropy-axis pick exactly when both picks resolve, `N > 25`, and the
entropy gap exceeds 0.50 bits; it chooses the rank-axis pick when both picks
resolve, `N > 25`, and the gap is at most 0.50 bits; it chooses the absolute
top-ranked candidate when both picks resolve and `N ≤ 25`; and it falls back
to the absolute top-ranked candidate when either pick fails to resolve. -/
theorem final_pick_policy :
    ∀ (rs es : List GUESS_METRICS) (n : Nat) (rp ep : PICK_DATA),
      0 < n →
      (∀ r e, find_metric_by_word rp.word rs = some r →
        find_metric_by_word ep.word es = some e →
        (25 < n →
          (1 / 2 < |e.entropy - r.entropy| →
            (determine_final_pick rs es n rp ep).1 = e.word) ∧
          (|e.entropy - r.entropy| ≤ 1 / 2 →
            (determine_final_pick rs es n rp ep).1 = r.word)) ∧
        (n ≤ 25 →
          (determine_final_pick rs es n rp ep).1 = (rs.getD 0 default).word)) ∧
      ((find_metric_by_word rp.word rs = none ∨
          find_metric_by_word ep.word es = none) →
        (determine_final_pick rs es n rp ep).1 = (rs.getD 0 default).word) := by
  intro rs es n rp ep hn
  constructor
  · intro r e hr he
    have hred : determine_final_pick rs es n rp ep =
        (if 25 < n then
          if 1 / 2 < |e.entropy - r.entropy| then (e.word, (e.rank : ℚ), e.entropy)
          else (rp.word, (r.rank : ℚ), r.entropy)
        else ((rs.getD 0 default).word, ((rs.getD 0 default).rank : ℚ),
          (rs.getD 0 default).entropy)) := by
      rw [determine_final_pick, hr, he]
    rw [hred]
    constructor
    · intro h25
      constructor
      · intro hgt
        rw [if_pos h25, if_pos hgt]
      · intro hle
        rw [if_pos h25, if_neg (not_lt.mpr hle)]
        show rp.word = r.word
        exact (find_metric_by_word_some hr).symm
    · intro h25
      rw [if_neg (not_lt.mpr h25)]
  · intro hnone
    have hred : (determine_final_pick rs es n rp ep).1 =
        (if 0 < n then
          ((rs.getD 0 default).word, ((rs.getD 0 default).rank : ℚ),
            (rs.getD 0 default).entropy)
         else (rp.word, (0 : ℚ), (0 : ℚ))).1 ∨
        (determine_final_pick rs es n rp ep).1 =
        (if 0 < n then
          ((rs.getD 0 default).word, ((rs.getD 0 default).rank : ℚ),
            (rs.getD 0 default).entropy)
         else (rp.word, (0 : ℚ), (0 : ℚ))).1 ∨
        ∃ r : GUESS_METRICS, (determine_final_pick rs es n rp ep).1 =
        (if 0 < n then
          ((rs.getD 0 default).word, ((rs.getD 0 default).rank : ℚ),
            (rs.getD 0 default).entropy)
         else (rp.word, (r.rank : ℚ), r.entropy)).1 := by
      rcases hnone with hr | he
      · cases hfe : find_metric_by_word ep.word es with
        | none => left; rw [determine_final_pick, hr, hfe]
        | some e => left; rw [determine_final_pick, hr, hfe]
      · cases hfr : find_metric_by_word rp.word rs with
        | none => left; rw [determine_final_pick, hfr, he]
        | some r =>
          right; right
          exact ⟨r, by rw [determine_final_pick, hfr, he]⟩
    rcases hred with h | h | ⟨r, h⟩ <;> rw [h, if_pos hn]

/-- Claim C5: a 5-letter word over letters passes `is_good_fit` (returns 1)
iff the four conditions of the spec hold, and survives
`filter_possible_answers` iff it is in the input list and the four conditions
hold. -/
theorem good_fit_characterization :
    ∀ (pMask : List Char) (notMask : List (List Char)) (pGood pBad pWord : List Char)
      (C : List (List Char)) (t : Nat),
      pWord.length = 5 →
      (∀ c ∈ pGood, c ∈ lettersAZ) →
      ((is_good_fit pMask notMask pGood pBad pWord = true ↔
          good_fit_spec pMask notMask pGood pBad pWord) ∧
        (pWord ∈ filter_possible_answers C pMask notMask pGood pBad t ↔
          pWord ∈ C ∧ good_fit_spec pMask notMask pGood pBad pWord)) := by
  intro pMask notMask pGood pBad pWord C t hlen hGoodAZ
  have hmain : is_good_fit pMask notMask pGood pBad pWord = true ↔
      good_fit_spec pMask notMask pGood pBad pWord := by
    rw [is_good_fit, Bool.and_eq_true, good_fit_spec]
    constructor
    · rintro ⟨hA, hB⟩
      rw [List.all_eq_true] at hA hB
      refine ⟨?_, ?_, ?_, ?_⟩
      · intro c hc
        have hcmem : c ∈ pGood := List.count_pos_iff.mp hc
        have := hA c (hGoodAZ c hcmem)
        rw [if_pos hc] at this
        exact of_decide_eq_true this
      · intro c hcw hcbad
        obtain ⟨i, hi, hgi⟩ := List.mem_iff_getElem.mp hcw
        have hi5 : i < 5 := by omega
        have hBi := hB i (List.mem_range.mpr hi5)
        rw [Bool.and_eq_true, Bool.and_eq_true, Bool.not_eq_true'] at hBi
        have h2 := of_decide_eq_false hBi.1.1
        rw [List.getD_eq_getElem _ _ (by omega), hgi] at h2
        exact h2 hcbad
      · intro i hi5 hmask
        have hBi := hB i (List.mem_range.mpr hi5)
        rw [Bool.and_eq_true, Bool.and_eq_true, Bool.or_eq_true] at hBi
        rcases hBi.1.2 with h2 | h2
        · exact absurd (of_decide_eq_true h2) hmask
        · exact (of_decide_eq_true h2).symm
      · intro i hi5 t2 ht6
        have hBi := hB i (List.mem_range.mpr hi5)
        rw [Bool.and_eq_true, Bool.and_eq_true] at hBi
        have h3 := hBi.2
        rw [List.all_eq_true] at h3
        exact of_decide_eq_true (h3 t2 (List.mem_range.mpr ht6))
    · rintro ⟨ha, hb, hc, hd⟩
      constructor
      · rw [List.all_eq_true]
        intro c _
        by_cases hcnt : 0 < pGood.count c
        · rw [if_pos hcnt]
          exact decide_eq_true (ha c hcnt)
        · rw [if_neg hcnt]
      · rw [List.all_eq_true]
        intro i hi
        have hi5 : i < 5 := List.mem_range.mp hi
        rw [Bool.and_eq_true, Bool.and_eq_true]
        refine ⟨⟨?_, ?_⟩, ?_⟩
        · rw [Bool.not_eq_true']
          apply decide_eq_false
          intro hmem
          have hwmem : pWord.getD i ' ' ∈ pWord := by
            rw [List.getD_eq_getElem _ _ (by omega)]
            exact List.getElem_mem _
          exact hb _ hwmem hmem
        · rw [Bool.or_eq_true]
          by_cases hm : pMask.getD i '*' = '*'
          · exact Or.inl (decide_eq_true hm)
          · exact Or.inr (decide_eq_true (hc i hi5 hm).symm)
        · rw [List.all_eq_true]
          intro t2 ht
          exact decide_eq_true (hd i hi5 t2 (List.mem_range.mp ht))
  refine ⟨hmain, ?_⟩
  rw [filter_possible_answers, List.mem_filter, hmain]

/-- Witness for claim C5 at a concrete input: with required letter A, excluded
letter Z, green mask `C****` and an empty exclusion table, CRANE is kept and
the characterization applies. -/
theorem good_fit_characterization_witness :
    is_good_fit ("C****".toList) [] ("A".toList) ("Z".toList) ("CRANE".toList) = true ↔
      good_fit_spec ("C****".toList) [] ("A".toList) ("Z".toList) ("CRANE".toList) := by
  exact (good_fit_characterization ("C****".toList) [] ("A".toList) ("Z".toList)
    ("CRANE".toList) [] 1 (by decide) (by decide)).1

/-- Witness for claim C3 at a concrete input: with 10 remaining candidates and
both picks resolving to the single candidate SLATE, the final pick is the
top-ranked candidate. -/
theorem final_pick_policy_witness :
    (determine_final_pick [⟨"SLATE", 1, 80, false, 'N', 'N'⟩]
        [⟨"SLATE", 1, 80, false, 'N', 'N'⟩] 10 ⟨"SLATE", "NONE"⟩ ⟨"SLATE", "NONE"⟩).1
      = (([⟨"SLATE", 1, 80, false, 'N', 'N'⟩] : List GUESS_METRICS).getD 0 default).word := by
  exact ((final_pick_policy [⟨"SLATE", 1, 80, false, 'N', 'N'⟩]
      [⟨"SLATE", 1, 80, false, 'N', 'N'⟩] 10 ⟨"SLATE", "NONE"⟩ ⟨"SLATE", "NONE"⟩
      (by decide)).1 ⟨"SLATE", 1, 80, false, 'N', 'N'⟩ ⟨"SLATE", 1, 80, false, 'N', 'N'⟩
      (by decide) (by decide)).2 (by decide)

lemma count_beq_eq (x : List Char) (L : List (List Char)) :
    @List.count (List Char) instBEqOfDecidableEq x L = L.count x := by
  induction L with
  | nil => rfl
  | cons y ys ih =>
    rw [@List.count_cons _ instBEqOfDecidableEq, @List.count_cons _ List.instBEq, ih]
    by_cases h : y = x <;> simp [h]

lemma dedup_map_sum_eq (L : List (List Char)) (f : List Char → ℝ) :
    (L.dedup.map f).sum = ∑ p in L.toFinset, f p := by
  rw [← List.sum_toFinset f (List.nodup_dedup L)]
  congr 1
  ext x
  simp [List.mem_dedup]

lemma entropy_sum_nonneg (L : List (List Char)) :
    0 ≤ (L.dedup.map (entropy_term L)).sum := by
  rw [dedup_map_sum_eq]
  apply Finset.sum_nonneg
  intro p hp
  have hpmem : p ∈ L := List.mem_toFinset.mp hp
  have hk1 : 0 < L.count p := List.count_pos_iff.mpr hpmem
  have hkN : L.count p ≤ L.length := List.count_le_length _ _
  have hk0 : (0 : ℝ) < (L.count p : ℝ) := by exact_mod_cast hk1
  rw [entropy_term]
  apply mul_nonneg
  · exact div_nonneg (Nat.cast_nonneg _) (Nat.cast_nonneg _)
  · apply div_nonneg
    · apply Real.log_nonneg
      rw [one_le_div hk0]
      exact_mod_cast hkN
    · exact Real.log_nonneg one_le_two

lemma entropy_sum_le (L : List (List Char)) (hLne : L ≠ []) :
    (L.dedup.map (entropy_term L)).sum ≤ Real.log L.length / Real.log 2 := by
  have hN0 : 0 < L.length := List.length_pos.mpr hLne
  have hNR : (0 : ℝ) < (L.length : ℝ) := by exact_mod_cast hN0
  have hlog2 : 0 < Real.log 2 := Real.log_pos one_lt_two
  rw [dedup_map_sum_eq]
  have hterm : ∀ p ∈ L.toFinset, entropy_term L p
      = ((L.count p : ℝ) / (L.length : ℝ) *
          Real.log ((L.length : ℝ) / (L.count p : ℝ))) / Real.log 2 := by
    intro p _
    rw [entropy_term, mul_div_assoc]
  rw [Finset.sum_congr rfl hterm, ← Finset.sum_div, div_le_div_iff_of_pos_right hlog2]
  have hw0 : ∀ p ∈ L.toFinset, (0 : ℝ) ≤ (L.count p : ℝ) / (L.length : ℝ) :=
    fun p _ => div_nonneg (Nat.cast_nonneg _) (Nat.cast_nonneg _)
  have hw1 : ∑ p in L.toFinset, (L.count p : ℝ) / (L.length : ℝ) = 1 := by
    rw [← Finset.sum_div]
    have hcnt : ∑ p in L.toFinset, L.count p = L.length := by
      rw [Finset.sum_congr rfl (fun x _ => (count_beq_eq x L).symm)]
      exact List.sum_toFinset_count_eq_length L
    rw [show (∑ p in L.toFinset, (L.count p : ℝ)) = (L.length : ℝ) by
      rw [← Nat.cast_sum]
      exact_mod_cast hcnt]
    exact div_self (ne_of_gt hNR)
  have hmem : ∀ p ∈ L.toFinset,
      (L.length : ℝ) / (L.count p : ℝ) ∈ Set.Ioi (0 : ℝ) := by
    intro p hp
    have hk : 0 < L.count p := List.count_pos_iff.mpr (List.mem_toFinset.mp hp)
    exact Set.mem_Ioi.mpr (div_pos hNR (by exact_mod_cast hk))
  have hjen := (strictConcaveOn_log_Ioi.concaveOn).le_map_sum hw0 hw1 hmem
  have hsum1 : ∑ p in L.toFinset,
      ((L.count p : ℝ) / (L.length : ℝ)) • ((L.length : ℝ) / (L.count p : ℝ))
      = (L.toFinset.card : ℝ) := by
    have h1 : ∀ p ∈ L.toFinset,
        ((L.count p : ℝ) / (L.length : ℝ)) • ((L.length : ℝ) / (L.count p : ℝ)) = 1 := by
      intro p hp
      have hk : (0 : ℝ) < (L.count p : ℝ) := by
        exact_mod_cast List.count_pos_iff.mpr (List.mem_toFinset.mp hp)
      rw [smul_eq_mul]
      field_simp
    rw [Finset.sum_congr rfl h1, Finset.sum_const, nsmul_eq_mul, mul_one]
  have hcardpos : (0 : ℝ) < (L.toFinset.card : ℝ) := by
    obtain ⟨x, hx⟩ := List.exists_mem_of_ne_nil L hLne
    have : 0 < L.toFinset.card := Finset.card_pos.mpr ⟨x, List.mem_toFinset.mpr hx⟩
    exact_mod_cast this
  calc ∑ p in L.toFinset,
        (L.count p : ℝ) / (L.length : ℝ) * Real.log ((L.length : ℝ) / (L.count p : ℝ))
      = ∑ p in L.toFinset,
        ((L.count p : ℝ) / (L.length : ℝ)) • Real.log ((L.length : ℝ) / (L.count p : ℝ)) := by
        simp [smul_eq_mul]
    _ ≤ Real.log (∑ p in L.toFinset,
        ((L.count p : ℝ) / (L.length : ℝ)) • ((L.length : ℝ) / (L.count p : ℝ))) := hjen
    _ = Real.log (L.toFinset.card : ℝ) := by rw [hsum1]
    _ ≤ Real.log (L.length : ℝ) := by
        apply Real.log_le_log hcardpos
        exact_mod_cast List.toFinset_card_le L

/-- Claim C6: `calculate_entropy_score` returns 0 whenever at most one
candidate remains, and for every non-empty candidate set the score lies
between 0 and `log2` of the candidate count. -/
theorem entropy_score_bounds :
    ∀ (guess : List Char) (S : List (List Char)),
      (S.length ≤ 1 → calculate_entropy_score guess S = 0) ∧
      (S ≠ [] → 0 ≤ calculate_entropy_score guess S ∧
        calculate_entropy_score guess S ≤ Real.log S.length / Real.log 2) := by
  intro guess S
  constructor
  · intro h
    rw [calculate_entropy_score, if_pos h]
  · intro hne
    by_cases hle : S.length ≤ 1
    · rw [calculate_entropy_score, if_pos hle]
      refine ⟨le_refl _, ?_⟩
      apply div_nonneg
      · apply Real.log_nonneg
        have : 0 < S.length := List.length_pos.mpr hne
        exact_mod_cast this
      · exact Real.log_nonneg one_le_two
    · rw [calculate_entropy_score, if_neg hle]
      have hLne : S.map (get_feedback_pattern guess) ≠ [] := by
        simp only [ne_eq, List.map_eq_nil_iff]
        exact hne
      constructor
      · exact entropy_sum_nonneg _
      · have hlen : (S.map (get_feedback_pattern guess)).length = S.length :=
          List.length_map _ _
        rw [← hlen]
        exact entropy_sum_le _ hLne

/-- Witness for claim C6 at a concrete input: a singleton candidate set scores
0, and a two-word set has a score between 0 and one bit. -/
theorem entropy_score_bounds_witness :
    calculate_entropy_score ("CRANE".toList) [("SLATE".toList)] = 0 ∧
    (0 ≤ calculate_entropy_score ("CRANE".toList)
        [("SLATE".toList), ("TRACE".toList)] ∧
      calculate_entropy_score ("CRANE".toList) [("SLATE".toList), ("TRACE".toList)]
        ≤ Real.log (([("SLATE".toList), ("TRACE".toList)] :
            List (List Char)).length) / Real.log 2) := by
  constructor
  · exact (entropy_score_bounds ("CRANE".toList) [("SLATE".toList)]).1 (by decide)
  · exact (entropy_score_bounds ("CRANE".toList)
      [("SLATE".toList), ("TRACE".toList)]).2 (by decide)

end WordleSolver
